import Mathlib

/-!
Shallow embedding of the Repetier-Firmware beeper subsystem
(src/src/Repetier/src/io/io_beeper.h) and proofs about it.

The header declares the data model (TonePacket, ToneTheme, ToneCondition),
the engine base class BeeperSourceBase, and the square-wave pin backend
(a template class over an output pin).  The bodies of pushTone, playTheme,
process, setCondition, runConditions and BeeperSourceBase::finishPlaying
are declared in the header but defined elsewhere in the repository (not in
the sources available here); those are modelled from the specification and
are marked as such in their doc comments.

Modelling decisions:
* fast8_t index fields (toneHead, toneTail) are Int: the constructor
  initialises them to -1 and they stay in [-1, beepBufSize).
* uint16_t frequency/duration and millis_t times are Nat (no arithmetic
  in the modelled code can overflow them in the scenarios proved here);
  the uint8_t toggle counter freqCnt wraps mod 256 as in the source.
* The engine plus its square-wave backend are merged into one state
  record BeeperSource; hardware effects (HAL tone start/stop, pin writes)
  are modelled as an emitted event list.
* Interrupt-protected blocks are modelled by each operation being a
  single atomic step of the state machine.
-/

namespace Beeper

/-- io_beeper.h:31 constexpr fast8_t beepBufSize = 50. -/
def beepBufSize : Int := 50

/-- io_beeper.h:33-37 TonePacket, a (frequency, duration) pair; a
frequency of 0 is a timed rest. -/
structure TonePacket where
  frequency : Nat
  duration : Nat
deriving DecidableEq, Repr

/-- io_beeper.h:39-56 ToneTheme, an immutable ordered list of packets. -/
structure ToneTheme where
  packets : List TonePacket
deriving DecidableEq, Repr

/-- io_beeper.h:51 getSize. -/
def ToneTheme.getSize (t : ToneTheme) : Nat := t.packets.length

/-- io_beeper.h:46-50 getTone, the indexed read (index in range in all
uses; out of range reads default to a zero packet in the model). -/
def ToneTheme.getTone (t : ToneTheme) (i : Nat) : TonePacket :=
  t.packets.getD i ⟨0, 0⟩

/-- io_beeper.h:58-65 ToneCondition: predicate edge tracker plus
play-count policy, referencing one theme.  The constant field loop is
initialised to (playTimes == 0) by the TONE_THEME_COND macro
(io_beeper.h:223-224). -/
structure ToneCondition where
  started : Bool
  loop : Bool
  heard : Bool
  plays : Int
  playCount : Int
  theme : ToneTheme
deriving DecidableEq, Repr

/-- Hardware effects of the square-wave backend: HAL tone generator
start, HAL tone generator stop, and a write to the output pin. -/
inductive HwEvent where
  | tone (freq : Nat)
  | noTone
  | pinSet (b : Bool)
deriving DecidableEq, Repr

/-- The engine state: BeeperSourceBase (io_beeper.h:67-119) merged with
the square-wave pin backend fields (io_beeper.h:121-168).  The buffer is
a total map from Int slot indices; only slots in [0, beepBufSize) are
ever read or written.  The condition-scan cursor fields are omitted:
the scan order is external to every property proved here. -/
structure BeeperSource where
  playing : Bool
  halted : Bool
  muted : Bool
  blocking : Bool
  toneHead : Int
  toneTail : Int
  prevToneTime : Nat
  playingFreq : Nat
  beepBuf : Int → TonePacket
  freqCnt : Nat
  freqDiv : Nat
  pinState : Bool

/-- io_beeper.h:69-79 BeeperSourceBase constructor together with the
BeeperSourceIO constructor io_beeper.h:124-130 (freqCnt 0, freqDiv 0,
pinState false); beepBuf is zero-initialised (io_beeper.h:114). -/
def initState : BeeperSource where
  playing := false
  halted := false
  muted := false
  blocking := false
  toneHead := -1
  toneTail := -1
  prevToneTime := 0
  playingFreq := 0
  beepBuf := fun _ => ⟨0, 0⟩
  freqCnt := 0
  freqDiv := 0
  pinState := false

/-- The wrap-aware distance between a head and a tail index, the
ternary in io_beeper.h:81. -/
def dist2 (head tail : Int) : Int :=
  if tail ≤ head then head - tail else beepBufSize - tail + head

/-- The wrap-aware head-tail distance of a state, the ternary in
io_beeper.h:81 without the isPlaying guard. -/
def distRaw (s : BeeperSource) : Int :=
  dist2 s.toneHead s.toneTail

/-- io_beeper.h:80-82 getHeadDist: 0 when not playing, else the
wrap-aware distance from tail to head. -/
def getHeadDist (s : BeeperSource) : Int :=
  if s.playing = false then 0 else distRaw s

/-- Advance of a circular index, as performed by the buffer walk:
increment and wrap to 0 at beepBufSize. -/
def nextIdx (i : Int) : Int :=
  if beepBufSize ≤ i + 1 then 0 else i + 1

/-- The buffer slot holding the i-th queued packet, counting from the
slot after the tail. -/
def slot (t : Int) (i : Nat) : Int :=
  (t + 1 + (i : Int)) % beepBufSize

/-- The abstract queue: the packets sitting in the buffer from the slot
after the tail up to the head, in play order. -/
def queueList (s : BeeperSource) : List TonePacket :=
  (List.range (distRaw s).toNat).map fun i => s.beepBuf (slot s.toneTail i)

/-- The packet currently being walked: the one in the slot right after
the tail. -/
def currentPacket (s : BeeperSource) : TonePacket :=
  s.beepBuf (nextIdx s.toneTail)

/-- io_beeper.h:147-158 BeeperSourceIO::refreshBeepFreq, run as one
atomic step (InterruptProtectedBlock): with a positive playingFreq it
clears halted, resets the divisor and starts the HAL tone generator;
with playingFreq 0 it stops the generator, forces the pin low (clearing
freqCnt and pinState) and sets halted. -/
def refreshBeepFreq (s : BeeperSource) : BeeperSource × List HwEvent :=
  if 0 < s.playingFreq then
    ({ s with halted := false, freqDiv := 0 }, [HwEvent.tone s.playingFreq])
  else
    ({ s with pinState := false, freqCnt := 0, halted := true },
      [HwEvent.noTone, HwEvent.pinSet false])

/-- io_beeper.h:159-165 BeeperSourceIO::finishPlaying: stops the HAL
tone generator, forces the pin off and zeroes freqDiv and freqCnt.
The call to BeeperSourceBase::finishPlaying is Modelled from the spec:
its body is not in the sources; per the specification it silences the
backend hardware output without clearing the tone queue (mute while
playing keeps the queue counting down), so it contributes no further
logical-state change here; the stop of the playing flag at the end of a
drain is performed by process itself. -/
def finishPlaying (s : BeeperSource) : BeeperSource × List HwEvent :=
  ({ s with freqDiv := 0, freqCnt := 0 },
    [HwEvent.noTone, HwEvent.pinSet false])

/-- io_beeper.h:89-94 mute: when muting while playing, first kill the
hardware output via finishPlaying; then store and return the new muted
flag. -/
def mute (set : Bool) (s : BeeperSource) : Bool × BeeperSource × List HwEvent :=
  if set = true ∧ s.playing = true then
    let r := finishPlaying s
    (set, { r.1 with muted := set }, r.2)
  else
    (set, { s with muted := set }, [])

/-- io_beeper.h:140-143 toggle: reset freqCnt and flip the pin. -/
def toggle (s : BeeperSource) : BeeperSource × List HwEvent :=
  ({ s with freqCnt := 0, pinState := !s.pinState },
    [HwEvent.pinSet (!s.pinState)])

/-- io_beeper.h:249-252 the IO_TARGET_BEEPER_LOOP step: when playing and
not halted, post-increment freqCnt (uint8_t, wrapping mod 256) and, when
the old count had reached the divisor, toggle the pin.  When idle or
halted the short-circuit leaves the state untouched. -/
def beeperLoopStep (s : BeeperSource) : BeeperSource × List HwEvent :=
  if s.playing = true ∧ s.halted = false then
    let old := s.freqCnt
    let s1 := { s with freqCnt := (s.freqCnt + 1) % 256 }
    if s.freqDiv ≤ old then toggle s1 else (s1, [])
  else (s, [])

/-- Result of a push operation: success flag, new state, emitted
hardware events. -/
structure PushOut where
  ok : Bool
  state : BeeperSource
  events : List HwEvent

/-- Modelled from the spec: BeeperSourceBase::pushTone is declared at
io_beeper.h:95 but its body is not in the sources.  Spec 4.3: enqueue
one packet if the buffer has a free slot, full being occupancy equal to
beepBufSize - 1; on success advance the head; if the engine was idle,
set playing, start timing the packet and immediately request the
backend refresh its frequency to the new packet's frequency. -/
def pushTone (now : Nat) (p : TonePacket) (s : BeeperSource) : PushOut :=
  if getHeadDist s = beepBufSize - 1 then ⟨false, s, []⟩
  else
    let h2 := nextIdx s.toneHead
    let s2 := { s with toneHead := h2,
                       beepBuf := fun j => if j = h2 then p else s.beepBuf j }
    if s2.playing = true then ⟨true, s2, []⟩
    else
      let s3 := { s2 with playing := true, playingFreq := p.frequency,
                          prevToneTime := now }
      let r := refreshBeepFreq s3
      ⟨true, r.1, r.2⟩

/-- Push a list of packets in order, stopping at the first failure (the
enqueue loop of playTheme). -/
def pushList (now : Nat) (ps : List TonePacket) (s : BeeperSource) : PushOut :=
  match ps with
  | [] => ⟨true, s, []⟩
  | p :: rest =>
    let r := pushTone now p s
    if r.ok = true then
      let r2 := pushList now rest r.state
      ⟨r2.ok, r2.state, r.events ++ r2.events⟩
    else ⟨false, r.state, r.events⟩

/-- Modelled from the spec: BeeperSourceBase::playTheme is declared at
io_beeper.h:96 but its body is not in the sources.  Spec 4.3: push every
packet of the theme in order, abort and return false on the first failed
push, leaving already-pushed packets enqueued.  The cooperative wait of
the blocking variant is a scheduling behaviour with no further effect on
the queue state and is not part of this state transformer. -/
def playTheme (now : Nat) (theme : ToneTheme) (block : Bool) (s : BeeperSource) : PushOut :=
  pushList now theme.packets s

/-- Result of one process tick: new state, the packet whose playback
completed at this tick (if any), emitted hardware events. -/
structure ProcOut where
  state : BeeperSource
  played : Option TonePacket
  events : List HwEvent

/-- Modelled from the spec: BeeperSourceBase::process is declared at
io_beeper.h:97 but its body is not in the sources.  Spec 4.3: no-op if
idle; while playing, when the current packet's duration (tracked
against prevToneTime) has elapsed, dequeue it; if the buffer is then
empty, stop playback and silence the backend; otherwise load the next
packet's frequency, restart timing and invoke the backend frequency
refresh - audibly only when not muted (spec 8: only the next process
refresh resumes sound after unmuting, and only if not muted). -/
def process (now : Nat) (s : BeeperSource) : ProcOut :=
  if s.playing = false then ⟨s, none, []⟩
  else
    let cur := currentPacket s
    if cur.duration ≤ now - s.prevToneTime then
      let s2 := { s with toneTail := nextIdx s.toneTail }
      if distRaw s2 = 0 then
        let r := finishPlaying { s2 with playing := false }
        ⟨r.1, some cur, r.2⟩
      else
        let s3 := { s2 with playingFreq := (currentPacket s2).frequency,
                            prevToneTime := now }
        if s3.muted = true then ⟨s3, some cur, []⟩
        else
          let r := refreshBeepFreq s3
          ⟨r.1, some cur, r.2⟩
    else ⟨s, none, []⟩

/-- Drive process with enough fuel to drain the queue: each tick is run
at the moment the current packet's duration has just elapsed; collects
the packets whose playback completed, in order. -/
def drainRun : Nat → BeeperSource → List TonePacket × BeeperSource
  | 0, s => ([], s)
  | n + 1, s =>
    if s.playing = true then
      let r := process (s.prevToneTime + (currentPacket s).duration) s
      let r2 := drainRun n r.state
      (r.played.toList ++ r2.1, r2.2)
    else ([], s)

/-- Modelled from the spec: BeeperSourceBase::setCondition is declared
at io_beeper.h:100 but its body is not in the sources.  Spec 4.3:
record the freshly sampled predicate level; a rising edge sets started
and clears heard and plays; a falling edge clears started; no playback
is triggered here. -/
def setCondition (set : Bool) (c : ToneCondition) : ToneCondition :=
  if set = true ∧ c.started = false then
    { c with started := true, heard := false, plays := 0 }
  else if set = false ∧ c.started = true then
    { c with started := false }
  else c

/-- Result of visiting one condition in runConditions: new engine state,
new condition state, whether the theme was enqueued at this visit. -/
structure RunOut where
  state : BeeperSource
  cond : ToneCondition
  fired : Bool

/-- Modelled from the spec: BeeperSourceBase::runConditions is declared
at io_beeper.h:101 but its body is not in the sources.  Spec 4.3, for
the visited condition: if started and not muted and (not yet heard, or
looping and the previously enqueued instance has fully drained), call
playTheme non-blocking, set heard and increment plays.  This models the
visit of one condition; the round-robin cursor over several registered
conditions is external to the properties proved here. -/
def runConditionStep (now : Nat) (s : BeeperSource) (c : ToneCondition) : RunOut :=
  if c.started = true ∧ s.muted = false ∧
      (c.heard = false ∨ (c.loop = true ∧ s.playing = false)) then
    let r := playTheme now c.theme false s
    ⟨r.state, { c with heard := true, plays := c.plays + 1 }, true⟩
  else ⟨s, c, false⟩

/-- io_beeper.h:242-245 the TONE_THEME_COND body at IO_TARGET_100MS:
the 100 ms tick samples the predicate into the condition only when the
engine is not muted. -/
def tick100 (pred : Bool) (s : BeeperSource) (c : ToneCondition) : ToneCondition :=
  if s.muted = false then setCondition pred c else c

/-- Fold of successive 100 ms ticks over a list of (predicate sample,
engine state at that tick) pairs. -/
def tick100Fold (c : ToneCondition) : List (Bool × BeeperSource) → ToneCondition
  | [] => c
  | ps :: rest => tick100Fold (tick100 ps.1 ps.2 c) rest

/-- io_beeper.h:218-221 the TONE_THEME registration macro: the
static_assert rejects, at registration time, a theme whose length
exceeds beepBufSize; an accepted theme is wrapped into a ToneTheme. -/
def registerTheme (ps : List TonePacket) : Option ToneTheme :=
  if beepBufSize < (ps.length : Int) then none else some ⟨ps⟩

/-- Commands of the surrounding system acting on one engine and one
condition: predicate sampling, the condition visit, and the public
engine operations. -/
inductive Cmd where
  | sample (set : Bool)
  | runCond (now : Nat)
  | push (now : Nat) (p : TonePacket)
  | proc (now : Nat)
  | setMute (set : Bool)
  | loopTick
deriving DecidableEq, Repr

/-- One system step on an (engine, condition) pair; the flag records
whether this step enqueued the condition's theme. -/
def execCmd (cmd : Cmd) (sc : BeeperSource × ToneCondition) :
    (BeeperSource × ToneCondition) × Bool :=
  match cmd with
  | .sample set => ((sc.1, setCondition set sc.2), false)
  | .runCond now =>
    let r := runConditionStep now sc.1 sc.2
    ((r.state, r.cond), r.fired)
  | .push now p => (((pushTone now p sc.1).state, sc.2), false)
  | .proc now => (((process now sc.1).state, sc.2), false)
  | .setMute set => (((mute set sc.1).2.1, sc.2), false)
  | .loopTick => (((beeperLoopStep sc.1).1, sc.2), false)

/-- How many steps of the trace enqueued the condition's theme. -/
def triggerCount : List Cmd → BeeperSource × ToneCondition → Nat
  | [], _ => 0
  | cmd :: tr, sc =>
    let r := execCmd cmd sc
    (if r.2 then 1 else 0) + triggerCount tr r.1

/-- The engine states reachable through the public operations from the
freshly constructed engine. -/
inductive Reachable : BeeperSource → Prop
  | init : Reachable initState
  | push (now : Nat) (p : TonePacket) {s : BeeperSource} :
      Reachable s → Reachable (pushTone now p s).state
  | theme (now : Nat) (t : ToneTheme) (b : Bool) {s : BeeperSource} :
      Reachable s → Reachable (playTheme now t b s).state
  | proc (now : Nat) {s : BeeperSource} :
      Reachable s → Reachable (process now s).state
  | muteStep (set : Bool) {s : BeeperSource} :
      Reachable s → Reachable (mute set s).2.1
  | loopStep {s : BeeperSource} :
      Reachable s → Reachable (beeperLoopStep s).1
  | condStep (now : Nat) (c : ToneCondition) {s : BeeperSource} :
      Reachable s → Reachable (runConditionStep now s c).state

/-- The engine invariant: index bounds with -1 as the empty sentinel,
the head only at the sentinel while the tail is too, occupancy at most
beepBufSize - 1, and playing exactly when the queue is nonempty. -/
def Inv (s : BeeperSource) : Prop :=
  -1 ≤ s.toneHead ∧ s.toneHead < beepBufSize ∧
  -1 ≤ s.toneTail ∧ s.toneTail < beepBufSize ∧
  (s.toneHead = -1 → s.toneTail = -1) ∧
  distRaw s ≤ beepBufSize - 1 ∧
  (s.playing = true ↔ 0 < distRaw s)

instance (s : BeeperSource) : Decidable (Inv s) := by
  unfold Inv
  infer_instance

/-! Arithmetic facts about the circular index computations. -/

lemma dist2_nonneg (h t : Int) (hh1 : -1 ≤ h) (ht1 : -1 ≤ t)
    (ht2 : t < beepBufSize) : 0 ≤ dist2 h t := by
  simp only [dist2, beepBufSize] at *
  split <;> omega

lemma nextIdx_bounds (i : Int) (h1 : -1 ≤ i) (h2 : i < beepBufSize) :
    0 ≤ nextIdx i ∧ nextIdx i < beepBufSize := by
  simp only [nextIdx, beepBufSize] at *
  split <;> omega

lemma dist2_push (h t : Int) (hh1 : -1 ≤ h) (hh2 : h < beepBufSize)
    (ht1 : -1 ≤ t) (ht2 : t < beepBufSize)
    (hd : dist2 h t ≤ beepBufSize - 2) :
    dist2 (nextIdx h) t = dist2 h t + 1 := by
  simp only [dist2, nextIdx, beepBufSize] at *
  split at hd <;> split <;> split <;> omega

lemma dist2_pop (h t : Int) (hh1 : -1 ≤ h) (hh2 : h < beepBufSize)
    (ht1 : -1 ≤ t) (ht2 : t < beepBufSize) (hd1 : 1 ≤ dist2 h t)
    (hd2 : dist2 h t ≤ beepBufSize - 1) :
    dist2 h (nextIdx t) = dist2 h t - 1 := by
  simp only [dist2, nextIdx, beepBufSize] at *
  split at hd1 <;> split <;> split <;> omega

lemma dist2_mod (h t : Int) (hh1 : -1 ≤ h) (hh2 : h < beepBufSize)
    (ht1 : -1 ≤ t) (ht2 : t < beepBufSize)
    (hd : dist2 h t ≤ beepBufSize - 1) :
    dist2 h t = (h - t) % beepBufSize := by
  simp only [dist2, beepBufSize] at *
  split at hd <;> omega

lemma slot_zero (t : Int) (h1 : -1 ≤ t) (h2 : t < beepBufSize) :
    slot t 0 = nextIdx t := by
  simp only [slot, nextIdx, beepBufSize] at *
  split <;> omega

lemma slot_shift (t : Int) (i : Nat) (h1 : -1 ≤ t) (h2 : t < beepBufSize) :
    slot (nextIdx t) i = slot t (i + 1) := by
  simp only [slot, nextIdx, beepBufSize] at *
  split <;> push_cast <;> omega

lemma slot_head (h t : Int) (hh1 : -1 ≤ h) (hh2 : h < beepBufSize)
    (ht1 : -1 ≤ t) (ht2 : t < beepBufSize)
    (hd : dist2 h t ≤ beepBufSize - 1) :
    slot t (dist2 h t).toNat = nextIdx h := by
  simp only [slot, nextIdx, dist2, beepBufSize] at *
  split at hd <;> split <;> omega

lemma slot_ne (t : Int) (i j : Nat) (h1 : -1 ≤ t) (h2 : t < beepBufSize)
    (hij : i < j) (hj : (j : Int) ≤ beepBufSize - 1) :
    slot t i ≠ slot t j := by
  simp only [slot, beepBufSize] at *
  omega

/-! Effect of a push and of a pop on the abstract queue. -/

lemma queueList_push (s : BeeperSource) (p : TonePacket)
    (hh1 : -1 ≤ s.toneHead) (hh2 : s.toneHead < beepBufSize)
    (ht1 : -1 ≤ s.toneTail) (ht2 : s.toneTail < beepBufSize)
    (hd : distRaw s ≤ beepBufSize - 2) :
    queueList { s with toneHead := nextIdx s.toneHead,
                       beepBuf := fun j => if j = nextIdx s.toneHead then p
                                           else s.beepBuf j }
      = queueList s ++ [p] := by
  have h0 : 0 ≤ distRaw s := dist2_nonneg _ _ hh1 ht1 ht2
  have hps : dist2 (nextIdx s.toneHead) s.toneTail = distRaw s + 1 :=
    dist2_push _ _ hh1 hh2 ht1 ht2 hd
  have hhead : slot s.toneTail (distRaw s).toNat = nextIdx s.toneHead :=
    slot_head _ _ hh1 hh2 ht1 ht2 (by simp only [distRaw, beepBufSize] at *; omega)
  simp only [queueList, distRaw] at *
  rw [hps]
  have h1 : (dist2 s.toneHead s.toneTail + 1).toNat
      = (dist2 s.toneHead s.toneTail).toNat + 1 := by omega
  rw [h1, List.range_succ, List.map_append]
  congr 1
  · refine List.map_congr_left ?_
    intro i hi
    simp only [List.mem_range] at hi
    have hne : slot s.toneTail i ≠ nextIdx s.toneHead := by
      rw [← hhead]
      refine slot_ne _ _ _ ht1 ht2 hi ?_
      simp only [beepBufSize] at *
      omega
    simp only [hne, if_false]
  · simp only [List.map_cons, List.map_nil, hhead, if_true]

lemma queueList_cons (s : BeeperSource)
    (hh1 : -1 ≤ s.toneHead) (hh2 : s.toneHead < beepBufSize)
    (ht1 : -1 ≤ s.toneTail) (ht2 : s.toneTail < beepBufSize)
    (hd1 : 1 ≤ distRaw s) (hd2 : distRaw s ≤ beepBufSize - 1) :
    queueList s = currentPacket s ::
      queueList { s with toneTail := nextIdx s.toneTail } := by
  have hpop : dist2 s.toneHead (nextIdx s.toneTail) = distRaw s - 1 :=
    dist2_pop _ _ hh1 hh2 ht1 ht2 hd1 hd2
  simp only [queueList, distRaw, currentPacket] at *
  rw [hpop]
  have h1 : (dist2 s.toneHead s.toneTail).toNat
      = (dist2 s.toneHead s.toneTail - 1).toNat + 1 := by omega
  rw [h1, List.range_succ_eq_map, List.map_cons, List.map_map]
  congr 1
  · rw [slot_zero _ ht1 ht2]
  · refine List.map_congr_left ?_
    intro i hi
    simp only [Function.comp]
    congr 1
    rw [slot_shift _ _ ht1 ht2]

/-! Behaviour of the push operations on invariant states. -/

lemma getHeadDist_eq (s : BeeperSource) (h : Inv s) :
    getHeadDist s = distRaw s := by
  obtain ⟨hh1, hh2, ht1, ht2, hsent, hdm, hpl⟩ := h
  have h0 : 0 ≤ distRaw s := dist2_nonneg _ _ hh1 ht1 ht2
  simp only [getHeadDist]
  split
  · rename_i hnp
    have hnd : ¬ (0 < distRaw s) := by
      intro hc
      rw [hpl.mpr hc] at hnp
      exact Bool.noConfusion hnp
    omega
  · rfl

lemma pushTone_fail (now : Nat) (p : TonePacket) (s : BeeperSource)
    (hfull : getHeadDist s = beepBufSize - 1) :
    pushTone now p s = ⟨false, s, []⟩ := by
  simp only [pushTone, if_pos hfull]

lemma pushTone_succ (now : Nat) (p : TonePacket) (s : BeeperSource)
    (h : Inv s) (hd : distRaw s ≤ beepBufSize - 2) :
    (pushTone now p s).ok = true ∧
    Inv (pushTone now p s).state ∧
    distRaw (pushTone now p s).state = distRaw s + 1 ∧
    queueList (pushTone now p s).state = queueList s ++ [p] ∧
    (pushTone now p s).state.playing = true ∧
    (pushTone now p s).state.toneTail = s.toneTail ∧
    (pushTone now p s).state.toneHead = nextIdx s.toneHead ∧
    (pushTone now p s).state.muted = s.muted := by
  obtain ⟨hh1, hh2, ht1, ht2, hsent, hdm, hpl⟩ := h
  have h0 : 0 ≤ distRaw s := dist2_nonneg _ _ hh1 ht1 ht2
  have hb := nextIdx_bounds s.toneHead hh1 hh2
  have hps : dist2 (nextIdx s.toneHead) s.toneTail = distRaw s + 1 :=
    dist2_push _ _ hh1 hh2 ht1 ht2 hd
  have hguard : ¬ (getHeadDist s = beepBufSize - 1) := by
    simp only [getHeadDist]
    split
    · simp only [beepBufSize]
      omega
    · simp only [beepBufSize] at *
      omega
  have hq := queueList_push s p hh1 hh2 ht1 ht2 hd
  have hstep : ∀ t : BeeperSource, t.toneHead = nextIdx s.toneHead →
      t.toneTail = s.toneTail → t.playing = true →
      t.beepBuf = (fun j => if j = nextIdx s.toneHead then p else s.beepBuf j) →
      Inv t ∧ distRaw t = distRaw s + 1 ∧ queueList t = queueList s ++ [p] := by
    intro t hth htt htp htb
    have hdt : distRaw t = distRaw s + 1 := by
      simp only [distRaw]
      rw [hth, htt]
      exact hps
    refine ⟨⟨?_, ?_, ?_, ?_, ?_, ?_, ?_⟩, hdt, ?_⟩
    · rw [hth]
      omega
    · rw [hth]
      omega
    · rw [htt]
      exact ht1
    · rw [htt]
      exact ht2
    · rw [hth, htt]
      intro hc
      omega
    · rw [hdt]
      simp only [beepBufSize] at *
      omega
    · rw [htp, hdt]
      constructor
      · intro _
        omega
      · intro _
        trivial
    · have heq : queueList t =
          queueList { s with toneHead := nextIdx s.toneHead,
                             beepBuf := fun j => if j = nextIdx s.toneHead then p
                                                 else s.beepBuf j } := by
        simp only [queueList, distRaw]
        rw [hth, htt, htb]
      rw [heq]
      exact hq
  simp only [pushTone, if_neg hguard]
  by_cases hp : s.playing = true
  · rw [if_pos hp]
    have H := hstep
      { s with toneHead := nextIdx s.toneHead,
               beepBuf := fun j => if j = nextIdx s.toneHead then p
                                   else s.beepBuf j } rfl rfl hp rfl
    exact ⟨rfl, H.1, H.2.1, H.2.2, hp, rfl, rfl, rfl⟩
  · rw [if_neg hp]
    by_cases hf : 0 < p.frequency
    · simp only [refreshBeepFreq, if_pos hf]
      have H := hstep
        { s with toneHead := nextIdx s.toneHead,
                 beepBuf := fun j => if j = nextIdx s.toneHead then p
                                     else s.beepBuf j,
                 playing := true, playingFreq := p.frequency,
                 prevToneTime := now, halted := false,
                 freqDiv := 0 } rfl rfl rfl rfl
      exact ⟨trivial, H.1, H.2.1, H.2.2, trivial, trivial, trivial, trivial⟩
    · simp only [refreshBeepFreq, if_neg hf]
      have H := hstep
        { s with toneHead := nextIdx s.toneHead,
                 beepBuf := fun j => if j = nextIdx s.toneHead then p
                                     else s.beepBuf j,
                 playing := true, playingFreq := p.frequency,
                 prevToneTime := now, pinState := false,
                 freqCnt := 0, halted := true } rfl rfl rfl rfl
      exact ⟨trivial, H.1, H.2.1, H.2.2, trivial, trivial, trivial, trivial⟩

lemma pushList_spec (now : Nat) (ps : List TonePacket) :
    ∀ s : BeeperSource, Inv s →
    (((pushList now ps s).ok = true ↔ (distRaw s).toNat + ps.length ≤ 49) ∧
     Inv (pushList now ps s).state ∧
     distRaw (pushList now ps s).state = min 49 (distRaw s + ps.length) ∧
     queueList (pushList now ps s).state
       = queueList s ++ ps.take (49 - (distRaw s).toNat) ∧
     (pushList now ps s).state.playing = (s.playing || !ps.isEmpty)) := by
  induction ps with
  | nil =>
    intro s h
    obtain ⟨hh1, hh2, ht1, ht2, hsent, hdm, hpl⟩ := h
    have h0 : 0 ≤ distRaw s := dist2_nonneg _ _ hh1 ht1 ht2
    have hred : pushList now [] s = ⟨true, s, []⟩ := rfl
    rw [hred]
    simp only [beepBufSize] at hdm
    refine ⟨?_, ⟨hh1, hh2, ht1, ht2, hsent, by simp only [beepBufSize]; omega, hpl⟩,
      ?_, ?_, ?_⟩
    · dsimp only
      simp only [List.length_nil]
      constructor
      · intro _
        omega
      · intro _
        trivial
    · dsimp only
      simp only [List.length_nil]
      push_cast
      omega
    · dsimp only
      simp only [List.take_nil, List.append_nil]
    · dsimp only
      simp only [List.isEmpty_nil, Bool.not_true, Bool.or_false]
  | cons p rest ih =>
    intro s h
    obtain ⟨hh1, hh2, ht1, ht2, hsent, hdm, hpl⟩ := h
    have h0 : 0 ≤ distRaw s := dist2_nonneg _ _ hh1 ht1 ht2
    by_cases hfull : distRaw s = beepBufSize - 1
    · have hfail := pushTone_fail now p s
        (by rw [getHeadDist_eq s ⟨hh1, hh2, ht1, ht2, hsent, hdm, hpl⟩]; exact hfull)
      have hred : pushList now (p :: rest) s = ⟨false, s, []⟩ := by
        dsimp only [pushList]
        rw [hfail]
        rfl
      simp only [beepBufSize] at hfull
      have hpt : s.playing = true := hpl.mpr (by omega)
      rw [hred]
      refine ⟨?_, ⟨hh1, hh2, ht1, ht2, hsent, hdm, hpl⟩, ?_, ?_, ?_⟩
      · dsimp only
        simp only [List.length_cons]
        constructor
        · intro hc
          exact absurd hc Bool.false_ne_true
        · intro hc
          exfalso
          omega
      · dsimp only
        simp only [List.length_cons]
        push_cast
        omega
      · dsimp only
        have hz : 49 - (distRaw s).toNat = 0 := by omega
        rw [hz, List.take_zero, List.append_nil]
      · dsimp only
        simp only [hpt, Bool.true_or]
    · have hd48 : distRaw s ≤ beepBufSize - 2 := by
        simp only [beepBufSize] at *
        omega
      obtain ⟨hok, hinv2, hdist2, hq2, hplay2, _, _, _⟩ :=
        pushTone_succ now p s ⟨hh1, hh2, ht1, ht2, hsent, hdm, hpl⟩ hd48
      simp only [beepBufSize] at hd48
      obtain ⟨ihok, ihinv, ihdist, ihq, ihplay⟩ := ih (pushTone now p s).state hinv2
      rw [hdist2] at ihok ihdist ihq
      rw [hq2] at ihq
      rw [hplay2] at ihplay
      have hred : pushList now (p :: rest) s
          = ⟨(pushList now rest (pushTone now p s).state).ok,
             (pushList now rest (pushTone now p s).state).state,
             (pushTone now p s).events
               ++ (pushList now rest (pushTone now p s).state).events⟩ := by
        dsimp only [pushList]
        rw [hok]
        rfl
      rw [hred]
      refine ⟨?_, ihinv, ?_, ?_, ?_⟩
      · dsimp only
        rw [ihok]
        simp only [List.length_cons]
        omega
      · dsimp only
        rw [ihdist]
        simp only [List.length_cons]
        push_cast
        omega
      · dsimp only
        rw [ihq]
        have hk : 49 - (distRaw s).toNat = (49 - (distRaw s + 1).toNat) + 1 := by
          omega
        rw [hk, List.take_succ_cons, List.append_assoc, List.singleton_append]
      · dsimp only
        rw [ihplay]
        simp only [List.isEmpty_cons, Bool.not_false, Bool.true_or, Bool.or_true]

lemma dist2_self (i : Int) : dist2 i i = 0 := by
  simp [dist2]

lemma process_pop (s : BeeperSource) (p : TonePacket) (rest : List TonePacket)
    (h : Inv s) (hq : queueList s = p :: rest) :
    (process (s.prevToneTime + (currentPacket s).duration) s).played = some p ∧
    Inv (process (s.prevToneTime + (currentPacket s).duration) s).state ∧
    queueList (process (s.prevToneTime + (currentPacket s).duration) s).state
      = rest ∧
    (process (s.prevToneTime + (currentPacket s).duration) s).state.playing
      = !rest.isEmpty := by
  obtain ⟨hh1, hh2, ht1, ht2, hsent, hdm, hpl⟩ := h
  have h0 : 0 ≤ distRaw s := dist2_nonneg _ _ hh1 ht1 ht2
  have hlen := congrArg List.length hq
  simp only [queueList, List.length_map, List.length_range, List.length_cons]
    at hlen
  have hge1 : 1 ≤ distRaw s := by omega
  have hp : s.playing = true := hpl.mpr (by omega)
  have hnf : ¬ (s.playing = false) := by
    rw [hp]
    decide
  have helapsed : (currentPacket s).duration
      ≤ s.prevToneTime + (currentPacket s).duration - s.prevToneTime := by
    omega
  have hhne : ¬ s.toneHead = -1 := by
    intro hc
    have ht := hsent hc
    simp only [distRaw, hc, ht, dist2_self] at hge1
    omega
  have hb2 := nextIdx_bounds s.toneTail ht1 ht2
  have hpop2 : dist2 s.toneHead (nextIdx s.toneTail) = distRaw s - 1 :=
    dist2_pop _ _ hh1 hh2 ht1 ht2 (by simpa only [distRaw] using hge1)
      (by simpa only [distRaw] using hdm)
  have hcons := queueList_cons s hh1 hh2 ht1 ht2 hge1 hdm
  rw [hq] at hcons
  injection hcons with hcur hrest
  have hstep : ∀ t : BeeperSource, t.toneHead = s.toneHead →
      t.toneTail = nextIdx s.toneTail → t.beepBuf = s.beepBuf →
      (t.playing = true ↔ 0 < distRaw s - 1) →
      Inv t ∧ queueList t
        = queueList { s with toneTail := nextIdx s.toneTail } := by
    intro t hth htt htb hiff
    have hdt : distRaw t = distRaw s - 1 := by
      simp only [distRaw]
      rw [hth, htt]
      exact hpop2
    refine ⟨⟨?_, ?_, ?_, ?_, ?_, ?_, ?_⟩, ?_⟩
    · rw [hth]
      exact hh1
    · rw [hth]
      exact hh2
    · rw [htt]
      omega
    · rw [htt]
      omega
    · rw [hth]
      intro hc
      exact absurd hc hhne
    · rw [hdt]
      omega
    · rw [hdt]
      exact hiff
    · simp only [queueList, distRaw]
      rw [hth, htt, htb]
  cases rest with
  | nil =>
    simp only [List.length_nil] at hlen
    have hd0 : distRaw { s with toneTail := nextIdx s.toneTail } = 0 := by
      simp only [distRaw]
      rw [hpop2]
      omega
    have hred : process (s.prevToneTime + (currentPacket s).duration) s
        = ⟨{ s with
              toneTail := nextIdx s.toneTail, playing := false,
              freqDiv := 0, freqCnt := 0 },
           some (currentPacket s),
           [HwEvent.noTone, HwEvent.pinSet false]⟩ := by
      dsimp only [process]
      rw [if_neg hnf, if_pos helapsed, if_pos hd0]
      rfl
    rw [hred]
    have H := hstep
      { s with
        toneTail := nextIdx s.toneTail, playing := false,
        freqDiv := 0, freqCnt := 0 } rfl rfl rfl
      (by
        constructor
        · intro hc
          exact Bool.noConfusion hc
        · intro hc
          simp only [distRaw] at hd0
          exfalso
          omega)
    refine ⟨by rw [← hcur], H.1, ?_, by simp⟩
    rw [H.2, ← hrest]
  | cons q qs =>
    simp only [List.length_cons] at hlen
    have hd0 : ¬ (distRaw { s with toneTail := nextIdx s.toneTail } = 0) := by
      simp only [distRaw]
      rw [hpop2]
      omega
    have hiffp : ∀ t : BeeperSource, t.playing = s.playing →
        (t.playing = true ↔ 0 < distRaw s - 1) := by
      intro t htp
      rw [htp, hp]
      constructor
      · intro _
        omega
      · intro _
        rfl
    by_cases hm : s.muted = true
    · have hred : process (s.prevToneTime + (currentPacket s).duration) s
          = ⟨{ s with
                toneTail := nextIdx s.toneTail,
                playingFreq := (currentPacket
                  { s with toneTail := nextIdx s.toneTail }).frequency,
                prevToneTime := s.prevToneTime + (currentPacket s).duration },
             some (currentPacket s), []⟩ := by
        dsimp only [process]
        rw [if_neg hnf, if_pos helapsed, if_neg hd0]
        rw [if_pos hm]
      rw [hred]
      have H := hstep
        { s with
          toneTail := nextIdx s.toneTail,
          playingFreq := (currentPacket
            { s with toneTail := nextIdx s.toneTail }).frequency,
          prevToneTime := s.prevToneTime + (currentPacket s).duration }
        rfl rfl rfl (hiffp _ rfl)
      refine ⟨by rw [← hcur], H.1, ?_, by rw [hp]; simp⟩
      rw [H.2, ← hrest]
    · by_cases hf : 0 < (currentPacket
          { s with toneTail := nextIdx s.toneTail }).frequency
      · have hred : process (s.prevToneTime + (currentPacket s).duration) s
            = ⟨{ s with
                  toneTail := nextIdx s.toneTail,
                  playingFreq := (currentPacket
                    { s with toneTail := nextIdx s.toneTail }).frequency,
                  prevToneTime := s.prevToneTime + (currentPacket s).duration,
                  halted := false, freqDiv := 0 },
               some (currentPacket s),
               [HwEvent.tone (currentPacket
                 { s with toneTail := nextIdx s.toneTail }).frequency]⟩ := by
          dsimp only [process]
          rw [if_neg hnf, if_pos helapsed, if_neg hd0]
          rw [if_neg hm]
          dsimp only [refreshBeepFreq]
          rw [if_pos hf]
        rw [hred]
        have H := hstep
          { s with
            toneTail := nextIdx s.toneTail,
            playingFreq := (currentPacket
              { s with toneTail := nextIdx s.toneTail }).frequency,
            prevToneTime := s.prevToneTime + (currentPacket s).duration,
            halted := false, freqDiv := 0 }
          rfl rfl rfl (hiffp _ rfl)
        refine ⟨by rw [← hcur], H.1, ?_, by rw [hp]; simp⟩
        rw [H.2, ← hrest]
      · have hred : process (s.prevToneTime + (currentPacket s).duration) s
            = ⟨{ s with
                  toneTail := nextIdx s.toneTail,
                  playingFreq := (currentPacket
                    { s with toneTail := nextIdx s.toneTail }).frequency,
                  prevToneTime := s.prevToneTime + (currentPacket s).duration,
                  pinState := false, freqCnt := 0, halted := true },
               some (currentPacket s),
               [HwEvent.noTone, HwEvent.pinSet false]⟩ := by
          dsimp only [process]
          rw [if_neg hnf, if_pos helapsed, if_neg hd0]
          rw [if_neg hm]
          dsimp only [refreshBeepFreq]
          rw [if_neg hf]
        rw [hred]
        have H := hstep
          { s with
            toneTail := nextIdx s.toneTail,
            playingFreq := (currentPacket
              { s with toneTail := nextIdx s.toneTail }).frequency,
            prevToneTime := s.prevToneTime + (currentPacket s).duration,
            pinState := false, freqCnt := 0, halted := true }
          rfl rfl rfl (hiffp _ rfl)
        refine ⟨by rw [← hcur], H.1, ?_, by rw [hp]; simp⟩
        rw [H.2, ← hrest]

lemma drain_spec : ∀ (q : List TonePacket) (s : BeeperSource), Inv s →
    queueList s = q →
    (drainRun q.length s).1 = q ∧
    Inv (drainRun q.length s).2 ∧
    (drainRun q.length s).2.playing = false := by
  intro q
  induction q with
  | nil =>
    intro s h hq
    have hlen := congrArg List.length hq
    simp only [queueList, List.length_map, List.length_range, List.length_nil]
      at hlen
    refine ⟨rfl, h, ?_⟩
    cases hps : s.playing with
    | false => exact hps
    | true =>
      exfalso
      have hgt := h.2.2.2.2.2.2.mp hps
      omega
  | cons p rest ih =>
    intro s h hq
    have hlen := congrArg List.length hq
    simp only [queueList, List.length_map, List.length_range, List.length_cons]
      at hlen
    have hp : s.playing = true := h.2.2.2.2.2.2.mpr (by omega)
    obtain ⟨hplayed, hinv2, hq2, hplay2⟩ := process_pop s p rest h hq
    have hred : drainRun (rest.length + 1) s
        = ((process (s.prevToneTime + (currentPacket s).duration) s).played.toList
             ++ (drainRun rest.length
                  (process (s.prevToneTime + (currentPacket s).duration) s).state).1,
           (drainRun rest.length
             (process (s.prevToneTime + (currentPacket s).duration) s).state).2) := by
      simp only [drainRun]
      rw [if_pos hp]
    rw [List.length_cons, hred]
    obtain ⟨ih1, ih2, ih3⟩ := ih _ hinv2 hq2
    refine ⟨?_, ih2, ih3⟩
    show (process (s.prevToneTime + (currentPacket s).duration) s).played.toList
        ++ (drainRun rest.length
             (process (s.prevToneTime + (currentPacket s).duration) s).state).1
      = p :: rest
    rw [hplayed, ih1]
    rfl

/-- Claim C1: for every sequence of pushTone calls keeping occupancy at
most beepBufSize - 1 = 49 (that is, every push succeeds), getHeadDist
returns exactly the number of enqueued but not-yet-played packets, and
draining the engine by repeated process ticks emits exactly the
enqueued (frequency, duration) pairs in strict FIFO order, after which
the engine is idle and getHeadDist is 0. -/
theorem c1_fifo_drain (ps : List TonePacket) (h : ps.length ≤ 49) :
    (pushList 0 ps initState).ok = true ∧
    getHeadDist (pushList 0 ps initState).state = (ps.length : Int) ∧
    (drainRun ps.length (pushList 0 ps initState).state).1 = ps ∧
    (drainRun ps.length (pushList 0 ps initState).state).2.playing = false ∧
    getHeadDist (drainRun ps.length (pushList 0 ps initState).state).2 = 0 := by
  have hInvInit : Inv initState := by decide
  have hd0 : distRaw initState = 0 := rfl
  obtain ⟨hok, hinv, hdist, hql, hplay⟩ := pushList_spec 0 ps initState hInvInit
  rw [hd0] at hok hdist hql
  have hqinit : queueList initState = [] := rfl
  rw [hqinit] at hql
  simp only [Int.toNat_zero, Nat.zero_add, Nat.sub_zero, List.nil_append,
    Int.zero_add] at hok hdist hql
  have hqs : queueList (pushList 0 ps initState).state = ps := by
    rw [hql]
    exact List.take_of_length_le h
  obtain ⟨d1, d2, d3⟩ := drain_spec ps _ hinv hqs
  refine ⟨hok.mpr h, ?_, d1, d3, ?_⟩
  · rw [getHeadDist_eq _ hinv, hdist]
    omega
  · simp only [getHeadDist, d3]
    rfl

/-- Witness for c1_fifo_drain: three concrete packets, one a rest,
pushed and drained in FIFO order. -/
theorem c1_fifo_drain_witness :
    (pushList 0 [⟨3000, 10⟩, ⟨0, 5⟩, ⟨440, 2⟩] initState).ok = true ∧
    getHeadDist (pushList 0 [⟨3000, 10⟩, ⟨0, 5⟩, ⟨440, 2⟩] initState).state
      = (3 : Int) ∧
    (drainRun 3 (pushList 0 [⟨3000, 10⟩, ⟨0, 5⟩, ⟨440, 2⟩] initState).state).1
      = [⟨3000, 10⟩, ⟨0, 5⟩, ⟨440, 2⟩] ∧
    (drainRun 3 (pushList 0 [⟨3000, 10⟩, ⟨0, 5⟩, ⟨440, 2⟩] initState).state).2.playing
      = false ∧
    getHeadDist
      (drainRun 3 (pushList 0 [⟨3000, 10⟩, ⟨0, 5⟩, ⟨440, 2⟩] initState).state).2
      = 0 := by
  have H := c1_fifo_drain [⟨3000, 10⟩, ⟨0, 5⟩, ⟨440, 2⟩] (by decide)
  simpa using H

/-- Claim C2: pushTone returns false and leaves the entire engine state
unchanged (and emits nothing) exactly when the buffer is full, full
being occupancy beepBufSize - 1 = 49; otherwise it appends the packet
to the queue, advances the head and returns true, and when the engine
was idle it additionally sets playing, starts timing at the call
instant and requests a backend frequency refresh for the new packet's
frequency (a tone start for a positive frequency, generator stop and
pin low for a rest). -/
theorem c2_pushTone_full_or_enqueue (now : Nat) (p : TonePacket)
    (s : BeeperSource) (h : Inv s) :
    ((pushTone now p s).ok = false ↔ distRaw s = beepBufSize - 1) ∧
    ((pushTone now p s).ok = false → pushTone now p s = ⟨false, s, []⟩) ∧
    ((pushTone now p s).ok = true →
      queueList (pushTone now p s).state = queueList s ++ [p] ∧
      (pushTone now p s).state.toneHead = nextIdx s.toneHead ∧
      (pushTone now p s).state.playing = true ∧
      (s.playing = false →
        (pushTone now p s).state.playingFreq = p.frequency ∧
        (pushTone now p s).state.prevToneTime = now ∧
        (pushTone now p s).events
          = (if 0 < p.frequency then [HwEvent.tone p.frequency]
             else [HwEvent.noTone, HwEvent.pinSet false]))) := by
  by_cases hfull : distRaw s = beepBufSize - 1
  · have hfail := pushTone_fail now p s
      (by rw [getHeadDist_eq s h]; exact hfull)
    rw [hfail]
    refine ⟨⟨fun _ => hfull, fun _ => rfl⟩, fun _ => rfl, ?_⟩
    intro hc
    exact Bool.noConfusion hc
  · obtain ⟨hh1, hh2, ht1, ht2, hsent, hdm, hpl⟩ := h
    have hd48 : distRaw s ≤ beepBufSize - 2 := by
      simp only [beepBufSize] at *
      omega
    obtain ⟨hok, hinv2, hdist2, hq2, hplay2, htail2, hhead2, hmut2⟩ :=
      pushTone_succ now p s ⟨hh1, hh2, ht1, ht2, hsent, hdm, hpl⟩ hd48
    refine ⟨⟨?_, ?_⟩, ?_, ?_⟩
    · intro hc
      rw [hok] at hc
      exact Bool.noConfusion hc
    · intro hc
      exact absurd hc hfull
    · intro hc
      rw [hok] at hc
      exact Bool.noConfusion hc
    · intro _
      refine ⟨hq2, hhead2, hplay2, ?_⟩
      intro hidle
      have hguard : ¬ (getHeadDist s = beepBufSize - 1) := by
        rw [getHeadDist_eq s ⟨hh1, hh2, ht1, ht2, hsent, hdm, hpl⟩]
        exact hfull
      have hidle2 : ¬ (({ s with
          toneHead := nextIdx s.toneHead,
          beepBuf := fun j => if j = nextIdx s.toneHead then p
                              else s.beepBuf j } : BeeperSource).playing
            = true) := by
        dsimp only
        rw [hidle]
        decide
      have hred : pushTone now p s
          = ⟨true,
             (refreshBeepFreq
               { s with
                 toneHead := nextIdx s.toneHead,
                 beepBuf := fun j => if j = nextIdx s.toneHead then p
                                     else s.beepBuf j,
                 playing := true, playingFreq := p.frequency,
                 prevToneTime := now }).1,
             (refreshBeepFreq
               { s with
                 toneHead := nextIdx s.toneHead,
                 beepBuf := fun j => if j = nextIdx s.toneHead then p
                                     else s.beepBuf j,
                 playing := true, playingFreq := p.frequency,
                 prevToneTime := now }).2⟩ := by
        dsimp only [pushTone]
        rw [if_neg hguard, if_neg hidle2]
      rw [hred]
      by_cases hf : 0 < p.frequency
      · have hrf : refreshBeepFreq
            { s with
              toneHead := nextIdx s.toneHead,
              beepBuf := fun j => if j = nextIdx s.toneHead then p
                                  else s.beepBuf j,
              playing := true, playingFreq := p.frequency,
              prevToneTime := now }
            = ({ s with
                 toneHead := nextIdx s.toneHead,
                 beepBuf := fun j => if j = nextIdx s.toneHead then p
                                     else s.beepBuf j,
                 playing := true, playingFreq := p.frequency,
                 prevToneTime := now, halted := false, freqDiv := 0 },
               [HwEvent.tone p.frequency]) := by
          dsimp only [refreshBeepFreq]
          rw [if_pos hf]
        rw [hrf, if_pos hf]
        exact ⟨rfl, rfl, rfl⟩
      · have hrf : refreshBeepFreq
            { s with
              toneHead := nextIdx s.toneHead,
              beepBuf := fun j => if j = nextIdx s.toneHead then p
                                  else s.beepBuf j,
              playing := true, playingFreq := p.frequency,
              prevToneTime := now }
            = ({ s with
                 toneHead := nextIdx s.toneHead,
                 beepBuf := fun j => if j = nextIdx s.toneHead then p
                                     else s.beepBuf j,
                 playing := true, playingFreq := p.frequency,
                 prevToneTime := now, pinState := false, freqCnt := 0,
                 halted := true },
               [HwEvent.noTone, HwEvent.pinSet false]) := by
          dsimp only [refreshBeepFreq]
          rw [if_neg hf]
        rw [hrf, if_neg hf]
        exact ⟨rfl, rfl, rfl⟩

/-- Witness for c2_pushTone_full_or_enqueue: a full engine (head 48,
tail -1, 49 queued packets) rejects a push unchanged. -/
theorem c2_pushTone_full_or_enqueue_witness :
    (pushTone 7 ⟨500, 4⟩
      { initState with playing := true, toneHead := 48 }).ok = false ∧
    pushTone 7 ⟨500, 4⟩ { initState with playing := true, toneHead := 48 }
      = ⟨false, { initState with playing := true, toneHead := 48 }, []⟩ := by
  have H := c2_pushTone_full_or_enqueue 7 ⟨500, 4⟩
    { initState with playing := true, toneHead := 48 } (by decide)
  have hfull : distRaw
      ({ initState with playing := true, toneHead := 48 } : BeeperSource)
      = beepBufSize - 1 := by decide
  have hok := H.1.mpr hfull
  exact ⟨hok, H.2.1 hok⟩

/-- Claim C3: playTheme pushes the theme's packets in index order onto
the queue; it succeeds exactly when the whole theme fits, and otherwise
it stops at the first failed push, returns false, and leaves exactly
the already-pushed prefix enqueued behind the old queue contents (no
rollback). -/
theorem c3_playTheme_prefix (now : Nat) (t : ToneTheme) (block : Bool)
    (s : BeeperSource) (h : Inv s) :
    ((playTheme now t block s).ok = true
       ↔ (distRaw s).toNat + t.packets.length ≤ 49) ∧
    queueList (playTheme now t block s).state
      = queueList s ++ t.packets.take (49 - (distRaw s).toNat) ∧
    Inv (playTheme now t block s).state := by
  obtain ⟨hok, hinv, hdist, hq, hplay⟩ := pushList_spec now t.packets s h
  exact ⟨hok, hq, hinv⟩

/-- Witness for c3_playTheme_prefix: a two-packet theme on the fresh
engine is enqueued whole and in order. -/
theorem c3_playTheme_prefix_witness :
    (playTheme 0 ⟨[⟨100, 1⟩, ⟨0, 2⟩]⟩ false initState).ok = true ∧
    queueList (playTheme 0 ⟨[⟨100, 1⟩, ⟨0, 2⟩]⟩ false initState).state
      = [⟨100, 1⟩, ⟨0, 2⟩] := by
  have H := c3_playTheme_prefix 0 ⟨[⟨100, 1⟩, ⟨0, 2⟩]⟩ false initState
    (by decide)
  refine ⟨H.1.mpr (by decide), ?_⟩
  rw [H.2.1]
  decide

/-! Invariant preservation for the remaining operations, and the
reachability invariant. -/

lemma pushTone_inv (now : Nat) (p : TonePacket) (s : BeeperSource)
    (h : Inv s) : Inv (pushTone now p s).state := by
  by_cases hfull : distRaw s = beepBufSize - 1
  · rw [pushTone_fail now p s (by rw [getHeadDist_eq s h]; exact hfull)]
    exact h
  · refine (pushTone_succ now p s h ?_).2.1
    obtain ⟨hh1, hh2, ht1, ht2, hsent, hdm, hpl⟩ := h
    simp only [beepBufSize] at *
    omega

lemma process_inv (now : Nat) (s : BeeperSource) (h : Inv s) :
    Inv (process now s).state := by
  obtain ⟨hh1, hh2, ht1, ht2, hsent, hdm, hpl⟩ := h
  have h0 : 0 ≤ distRaw s := dist2_nonneg _ _ hh1 ht1 ht2
  by_cases hp : s.playing = false
  · have hred : process now s = ⟨s, none, []⟩ := by
      dsimp only [process]
      rw [if_pos hp]
    rw [hred]
    exact ⟨hh1, hh2, ht1, ht2, hsent, hdm, hpl⟩
  · by_cases hel : (currentPacket s).duration ≤ now - s.prevToneTime
    case neg =>
      have hred : process now s = ⟨s, none, []⟩ := by
        dsimp only [process]
        rw [if_neg hp, if_neg hel]
      rw [hred]
      exact ⟨hh1, hh2, ht1, ht2, hsent, hdm, hpl⟩
    case pos =>
      have hptrue : s.playing = true := by
        cases hps : s.playing
        · exact absurd hps hp
        · rfl
      have hge1 : 1 ≤ distRaw s := hpl.mp hptrue
      have hhne : ¬ s.toneHead = -1 := by
        intro hc
        have ht := hsent hc
        simp only [distRaw, hc, ht, dist2_self] at hge1
        omega
      have hb2 := nextIdx_bounds s.toneTail ht1 ht2
      have hpop2 : dist2 s.toneHead (nextIdx s.toneTail) = distRaw s - 1 :=
        dist2_pop _ _ hh1 hh2 ht1 ht2 (by simpa only [distRaw] using hge1)
          (by simpa only [distRaw] using hdm)
      have hstep : ∀ t : BeeperSource, t.toneHead = s.toneHead →
          t.toneTail = nextIdx s.toneTail →
          (t.playing = true ↔ 0 < distRaw s - 1) → Inv t := by
        intro t hth htt hiff
        have hdt : distRaw t = distRaw s - 1 := by
          simp only [distRaw]
          rw [hth, htt]
          exact hpop2
        refine ⟨?_, ?_, ?_, ?_, ?_, ?_, ?_⟩
        · rw [hth]
          exact hh1
        · rw [hth]
          exact hh2
        · rw [htt]
          omega
        · rw [htt]
          omega
        · rw [hth]
          intro hc
          exact absurd hc hhne
        · rw [hdt]
          omega
        · rw [hdt]
          exact hiff
      by_cases hd0 : distRaw { s with toneTail := nextIdx s.toneTail } = 0
      · have hred : process now s
            = ⟨{ s with
                  toneTail := nextIdx s.toneTail, playing := false,
                  freqDiv := 0, freqCnt := 0 },
               some (currentPacket s),
               [HwEvent.noTone, HwEvent.pinSet false]⟩ := by
          dsimp only [process]
          rw [if_neg hp, if_pos hel, if_pos hd0]
          rfl
        rw [hred]
        refine hstep _ rfl rfl ?_
        simp only [distRaw] at hd0
        constructor
        · intro hc
          exact Bool.noConfusion hc
        · intro hc
          exfalso
          omega
      · have hiffp : ∀ t : BeeperSource, t.playing = s.playing →
            (t.playing = true ↔ 0 < distRaw s - 1) := by
          intro t htp
          rw [htp, hptrue]
          simp only [distRaw] at hd0
          constructor
          · intro _
            omega
          · intro _
            rfl
        by_cases hm : s.muted = true
        · have hred : process now s
              = ⟨{ s with
                    toneTail := nextIdx s.toneTail,
                    playingFreq := (currentPacket
                      { s with toneTail := nextIdx s.toneTail }).frequency,
                    prevToneTime := now },
                 some (currentPacket s), []⟩ := by
            dsimp only [process]
            rw [if_neg hp, if_pos hel, if_neg hd0]
            rw [if_pos hm]
          rw [hred]
          exact hstep _ rfl rfl (hiffp _ rfl)
        · by_cases hf : 0 < (currentPacket
              { s with toneTail := nextIdx s.toneTail }).frequency
          · have hred : process now s
                = ⟨{ s with
                      toneTail := nextIdx s.toneTail,
                      playingFreq := (currentPacket
                        { s with toneTail := nextIdx s.toneTail }).frequency,
                      prevToneTime := now, halted := false, freqDiv := 0 },
                   some (currentPacket s),
                   [HwEvent.tone (currentPacket
                     { s with toneTail := nextIdx s.toneTail }).frequency]⟩ := by
              dsimp only [process]
              rw [if_neg hp, if_pos hel, if_neg hd0]
              rw [if_neg hm]
              dsimp only [refreshBeepFreq]
              rw [if_pos hf]
            rw [hred]
            exact hstep _ rfl rfl (hiffp _ rfl)
          · have hred : process now s
                = ⟨{ s with
                      toneTail := nextIdx s.toneTail,
                      playingFreq := (currentPacket
                        { s with toneTail := nextIdx s.toneTail }).frequency,
                      prevToneTime := now, pinState := false, freqCnt := 0,
                      halted := true },
                   some (currentPacket s),
                   [HwEvent.noTone, HwEvent.pinSet false]⟩ := by
              dsimp only [process]
              rw [if_neg hp, if_pos hel, if_neg hd0]
              rw [if_neg hm]
              dsimp only [refreshBeepFreq]
              rw [if_neg hf]
            rw [hred]
            exact hstep _ rfl rfl (hiffp _ rfl)

lemma mute_inv (set : Bool) (s : BeeperSource) (h : Inv s) :
    Inv (mute set s).2.1 := by
  obtain ⟨hh1, hh2, ht1, ht2, hsent, hdm, hpl⟩ := h
  by_cases hc : set = true ∧ s.playing = true
  · have hred : mute set s
        = (set, { s with muted := set, freqDiv := 0, freqCnt := 0 },
           [HwEvent.noTone, HwEvent.pinSet false]) := by
      dsimp only [mute]
      rw [if_pos hc]
      rfl
    rw [hred]
    exact ⟨hh1, hh2, ht1, ht2, hsent, hdm, hpl⟩
  · have hred : mute set s = (set, { s with muted := set }, []) := by
      dsimp only [mute]
      rw [if_neg hc]
    rw [hred]
    exact ⟨hh1, hh2, ht1, ht2, hsent, hdm, hpl⟩

lemma beeperLoopStep_inv (s : BeeperSource) (h : Inv s) :
    Inv (beeperLoopStep s).1 := by
  obtain ⟨hh1, hh2, ht1, ht2, hsent, hdm, hpl⟩ := h
  by_cases hg : s.playing = true ∧ s.halted = false
  · by_cases hc : s.freqDiv ≤ s.freqCnt
    · have hred : beeperLoopStep s
          = ({ s with freqCnt := 0, pinState := !s.pinState },
             [HwEvent.pinSet (!s.pinState)]) := by
        dsimp only [beeperLoopStep]
        rw [if_pos hg, if_pos hc]
        rfl
      rw [hred]
      exact ⟨hh1, hh2, ht1, ht2, hsent, hdm, hpl⟩
    · have hred : beeperLoopStep s
          = ({ s with freqCnt := (s.freqCnt + 1) % 256 }, []) := by
        dsimp only [beeperLoopStep]
        rw [if_pos hg, if_neg hc]
      rw [hred]
      exact ⟨hh1, hh2, ht1, ht2, hsent, hdm, hpl⟩
  · have hred : beeperLoopStep s = (s, []) := by
      dsimp only [beeperLoopStep]
      rw [if_neg hg]
    rw [hred]
    exact ⟨hh1, hh2, ht1, ht2, hsent, hdm, hpl⟩

lemma runConditionStep_inv (now : Nat) (s : BeeperSource)
    (c : ToneCondition) (h : Inv s) : Inv (runConditionStep now s c).state := by
  by_cases hg : c.started = true ∧ s.muted = false ∧
      (c.heard = false ∨ (c.loop = true ∧ s.playing = false))
  · have hred : runConditionStep now s c
        = ⟨(playTheme now c.theme false s).state,
           { c with heard := true, plays := c.plays + 1 }, true⟩ := by
      dsimp only [runConditionStep]
      rw [if_pos hg]
    rw [hred]
    exact (pushList_spec now c.theme.packets s h).2.1
  · have hred : runConditionStep now s c = ⟨s, c, false⟩ := by
      dsimp only [runConditionStep]
      rw [if_neg hg]
    rw [hred]
    exact h

lemma reachable_inv : ∀ s : BeeperSource, Reachable s → Inv s := by
  intro s hr
  induction hr with
  | init => decide
  | push now p _ ih => exact pushTone_inv now p _ ih
  | theme now t b _ ih => exact (pushList_spec now t.packets _ ih).2.1
  | proc now _ ih => exact process_inv now _ ih
  | muteStep set _ ih => exact mute_inv set _ ih
  | loopStep _ ih => exact beeperLoopStep_inv _ ih
  | condStep now c _ ih => exact runConditionStep_inv now _ c ih

/-- Claim C4 counterexample: immediately after construction
(io_beeper.h:74-75) toneHead and toneTail are -1, so the claimed bound
0 ≤ head, 0 ≤ tail fails at the reachable state initState. -/
theorem c4_counterexample :
    Reachable initState ∧ initState.toneHead < 0 ∧ initState.toneTail < 0 :=
  ⟨Reachable.init, by decide, by decide⟩

/-- Claim C4 (amended): in every reachable engine state the indices
satisfy -1 ≤ head < beepBufSize and -1 ≤ tail < beepBufSize (the
constructor starts both at the empty sentinel -1, not at 0), the
wrap-aware occupancy equals (head - tail) mod beepBufSize, and the
playing flag is true exactly when the occupancy is positive (a
zero-frequency rest that is counting down keeps its packet in the
queue, so that case is subsumed by positive occupancy). -/
theorem c4_reachable_invariant (s : BeeperSource) (h : Reachable s) :
    -1 ≤ s.toneHead ∧ s.toneHead < beepBufSize ∧
    -1 ≤ s.toneTail ∧ s.toneTail < beepBufSize ∧
    distRaw s = (s.toneHead - s.toneTail) % beepBufSize ∧
    (s.playing = true ↔ 0 < distRaw s) := by
  obtain ⟨hh1, hh2, ht1, ht2, hsent, hdm, hpl⟩ := reachable_inv s h
  exact ⟨hh1, hh2, ht1, ht2, dist2_mod _ _ hh1 hh2 ht1 ht2 hdm, hpl⟩

/-- Witness for c4_reachable_invariant at the freshly constructed
engine. -/
theorem c4_reachable_invariant_witness :
    -1 ≤ initState.toneHead ∧ initState.toneHead < beepBufSize ∧
    -1 ≤ initState.toneTail ∧ initState.toneTail < beepBufSize ∧
    distRaw initState
      = (initState.toneHead - initState.toneTail) % beepBufSize ∧
    (initState.playing = true ↔ 0 < distRaw initState) :=
  c4_reachable_invariant initState Reachable.init

/-- Claim C5: mute returns the new muted flag (equal to set); muting
while playing immediately silences the hardware via finishPlaying
(generator stop, pin off, divisor and counter cleared) without
clearing the tone queue - head, tail, buffer contents, the playing
flag and the timing field are untouched, so the queue keeps counting
down silently; mute(false) only stores the cleared muted flag, changes
nothing else and emits no hardware event, so it does not by itself
resume audible output. -/
theorem c5_mute (set : Bool) (s : BeeperSource) :
    (mute set s).1 = set ∧
    (mute set s).2.1
      = { s with
          muted := set,
          freqDiv := if set = true ∧ s.playing = true then 0 else s.freqDiv,
          freqCnt := if set = true ∧ s.playing = true then 0 else s.freqCnt } ∧
    (mute set s).2.2
      = (if set = true ∧ s.playing = true
         then [HwEvent.noTone, HwEvent.pinSet false] else []) := by
  by_cases hc : set = true ∧ s.playing = true
  · have hred : mute set s
        = (set, { s with muted := set, freqDiv := 0, freqCnt := 0 },
           [HwEvent.noTone, HwEvent.pinSet false]) := by
      dsimp only [mute]
      rw [if_pos hc]
      rfl
    rw [hred, if_pos hc, if_pos hc, if_pos hc]
    exact ⟨rfl, rfl, rfl⟩
  · have hred : mute set s = (set, { s with muted := set }, []) := by
      dsimp only [mute]
      rw [if_neg hc]
    rw [hred, if_neg hc, if_neg hc, if_neg hc]
    exact ⟨rfl, rfl, rfl⟩

/-- Claim C6: refreshBeepFreq, executed as one interrupt-protected
atomic step: when playingFreq is positive it clears halted, resets the
toggle divisor to 0 and starts the hardware tone generator at
playingFreq; when playingFreq is 0 it stops the tone generator, forces
the output pin low (pinState false, freqCnt 0) and sets halted. -/
theorem c6_refreshBeepFreq (s : BeeperSource) :
    (0 < s.playingFreq →
      refreshBeepFreq s
        = ({ s with halted := false, freqDiv := 0 },
           [HwEvent.tone s.playingFreq])) ∧
    (s.playingFreq = 0 →
      refreshBeepFreq s
        = ({ s with pinState := false, freqCnt := 0, halted := true },
           [HwEvent.noTone, HwEvent.pinSet false])) := by
  constructor
  · intro hf
    dsimp only [refreshBeepFreq]
    rw [if_pos hf]
  · intro hf
    dsimp only [refreshBeepFreq]
    rw [if_neg (by omega)]

/-- Witness for c6_refreshBeepFreq at frequency 440 and at a rest. -/
theorem c6_refreshBeepFreq_witness :
    refreshBeepFreq { initState with playingFreq := 440 }
      = ({ initState with playingFreq := 440, halted := false, freqDiv := 0 },
         [HwEvent.tone 440]) ∧
    refreshBeepFreq initState
      = ({ initState with pinState := false, freqCnt := 0, halted := true },
         [HwEvent.noTone, HwEvent.pinSet false]) :=
  ⟨(c6_refreshBeepFreq { initState with playingFreq := 440 }).1 (by decide),
   (c6_refreshBeepFreq initState).2 (by decide)⟩

/-- Claim C10: the very-high-rate toggle step produces a pin transition
exactly when the engine is playing, not halted, and the counter
freqCnt (compared before its post-increment) has reached the divisor
freqDiv; when idle or halted it leaves the whole state unchanged and
emits nothing, so no pin transitions happen during silent rests or
while idle; when playing and not halted but the counter has not yet
reached the divisor it only increments the counter (uint8_t wrap). -/
theorem c10_beeperLoop (s : BeeperSource) :
    ((beeperLoopStep s).2 ≠ []
       ↔ s.playing = true ∧ s.halted = false ∧ s.freqDiv ≤ s.freqCnt) ∧
    (s.playing = false ∨ s.halted = true → beeperLoopStep s = (s, [])) ∧
    (s.playing = true ∧ s.halted = false ∧ s.freqDiv ≤ s.freqCnt →
      beeperLoopStep s
        = ({ s with freqCnt := 0, pinState := !s.pinState },
           [HwEvent.pinSet (!s.pinState)])) ∧
    (s.playing = true ∧ s.halted = false ∧ s.freqCnt < s.freqDiv →
      beeperLoopStep s
        = ({ s with freqCnt := (s.freqCnt + 1) % 256 }, [])) := by
  by_cases hg : s.playing = true ∧ s.halted = false
  · by_cases hc : s.freqDiv ≤ s.freqCnt
    · have hred : beeperLoopStep s
          = ({ s with freqCnt := 0, pinState := !s.pinState },
             [HwEvent.pinSet (!s.pinState)]) := by
        dsimp only [beeperLoopStep]
        rw [if_pos hg, if_pos hc]
        rfl
      rw [hred]
      refine ⟨⟨fun _ => ⟨hg.1, hg.2, hc⟩, fun _ => by simp⟩, ?_, fun _ => rfl, ?_⟩
      · intro hcase
        exfalso
        rcases hcase with hc1 | hc2
        · rw [hg.1] at hc1
          exact Bool.noConfusion hc1
        · rw [hg.2] at hc2
          exact Bool.noConfusion hc2
      · intro hcase
        exfalso
        omega
    · have hred : beeperLoopStep s
          = ({ s with freqCnt := (s.freqCnt + 1) % 256 }, []) := by
        dsimp only [beeperLoopStep]
        rw [if_pos hg, if_neg hc]
      rw [hred]
      refine ⟨⟨fun hne => absurd rfl hne, fun hcond => absurd hcond.2.2 hc⟩,
        ?_, ?_, fun _ => rfl⟩
      · intro hcase
        exfalso
        rcases hcase with hc1 | hc2
        · rw [hg.1] at hc1
          exact Bool.noConfusion hc1
        · rw [hg.2] at hc2
          exact Bool.noConfusion hc2
      · intro hcase
        exact absurd hcase.2.2 hc
  · have hred : beeperLoopStep s = (s, []) := by
      dsimp only [beeperLoopStep]
      rw [if_neg hg]
    rw [hred]
    refine ⟨⟨fun hne => absurd rfl hne,
        fun hcond => absurd ⟨hcond.1, hcond.2.1⟩ hg⟩, fun _ => rfl, ?_, ?_⟩
    · intro hcase
      exact absurd ⟨hcase.1, hcase.2.1⟩ hg
    · intro hcase
      exact absurd ⟨hcase.1, hcase.2.1⟩ hg

/-- Witness for c10_beeperLoop: an idle engine is left untouched by the
toggle step. -/
theorem c10_beeperLoop_witness : beeperLoopStep initState = (initState, []) :=
  (c10_beeperLoop initState).2.1 (Or.inl (by decide))

/-- Claim C8: theme registration (the TONE_THEME static_assert,
io_beeper.h:218-221) rejects any theme longer than beepBufSize, so
every registered ToneTheme has size at most beepBufSize = 50 and no
registered theme reaching playTheme exceeds the buffer capacity. -/
theorem c8_registered_theme_fits (ps : List TonePacket) :
    (∀ t : ToneTheme, registerTheme ps = some t
        → (t.getSize : Int) ≤ beepBufSize) ∧
    (beepBufSize < (ps.length : Int) → registerTheme ps = none) := by
  constructor
  · intro t ht
    dsimp only [registerTheme] at ht
    split at ht
    · exact Option.noConfusion ht
    · rename_i hle
      injection ht with ht2
      rw [← ht2]
      dsimp only [ToneTheme.getSize]
      omega
  · intro hlong
    dsimp only [registerTheme]
    rw [if_pos hlong]

/-- Witness for c8_registered_theme_fits: a 51-packet theme is rejected
at registration. -/
theorem c8_registered_theme_fits_witness :
    registerTheme (List.replicate 51 ⟨100, 1⟩) = none :=
  (c8_registered_theme_fits (List.replicate 51 ⟨100, 1⟩)).2 (by decide)

lemma trigger_le_one (tr : List Cmd) :
    ∀ (s : BeeperSource) (c : ToneCondition), c.started = true →
    c.loop = false → (∀ cmd ∈ tr, cmd ≠ Cmd.sample false) →
    triggerCount tr (s, c) ≤ 1 ∧
    (c.heard = true → triggerCount tr (s, c) = 0) := by
  induction tr with
  | nil =>
    intro s c hs hl hup
    exact ⟨Nat.zero_le 1, fun _ => rfl⟩
  | cons cmd tr ih =>
    intro s c hs hl hup
    have hup2 : ∀ x ∈ tr, x ≠ Cmd.sample false :=
      fun x hx => hup x (List.mem_cons_of_mem _ hx)
    cases cmd with
    | sample set =>
      have hset : set = true := by
        have hne := hup (Cmd.sample set) (List.mem_cons_self _ _)
        cases set
        · exact absurd rfl hne
        · rfl
      have hsc : setCondition true c = c := by
        dsimp only [setCondition]
        rw [if_neg fun hcond => by rw [hs] at hcond; exact Bool.noConfusion hcond.2]
        rw [if_neg fun hcond => Bool.noConfusion hcond.1]
      have hred : triggerCount (Cmd.sample set :: tr) (s, c)
          = triggerCount tr (s, setCondition set c) := by
        dsimp only [triggerCount, execCmd]
        simp
      rw [hred, hset, hsc]
      exact ih s c hs hl hup2
    | runCond now =>
      by_cases hg : c.started = true ∧ s.muted = false ∧
          (c.heard = false ∨ (c.loop = true ∧ s.playing = false))
      · have hredrc : runConditionStep now s c
            = ⟨(playTheme now c.theme false s).state,
               { c with heard := true, plays := c.plays + 1 }, true⟩ := by
          dsimp only [runConditionStep]
          rw [if_pos hg]
        have hred : triggerCount (Cmd.runCond now :: tr) (s, c)
            = 1 + triggerCount tr ((playTheme now c.theme false s).state,
                { c with heard := true, plays := c.plays + 1 }) := by
          dsimp only [triggerCount, execCmd]
          rw [hredrc]
          simp
        rw [hred]
        have IH := ih (playTheme now c.theme false s).state
          { c with heard := true, plays := c.plays + 1 } hs hl hup2
        have h0 := IH.2 rfl
        constructor
        · omega
        · intro hch
          exfalso
          rcases hg.2.2 with h1 | h2
          · rw [hch] at h1
            exact Bool.noConfusion h1
          · rw [hl] at h2
            exact Bool.noConfusion h2.1
      · have hredrc : runConditionStep now s c = ⟨s, c, false⟩ := by
          dsimp only [runConditionStep]
          rw [if_neg hg]
        have hred : triggerCount (Cmd.runCond now :: tr) (s, c)
            = triggerCount tr (s, c) := by
          dsimp only [triggerCount, execCmd]
          rw [hredrc]
          simp
        rw [hred]
        exact ih s c hs hl hup2
    | push now p =>
      have hred : triggerCount (Cmd.push now p :: tr) (s, c)
          = triggerCount tr ((pushTone now p s).state, c) := by
        dsimp only [triggerCount, execCmd]
        simp
      rw [hred]
      exact ih _ c hs hl hup2
    | proc now =>
      have hred : triggerCount (Cmd.proc now :: tr) (s, c)
          = triggerCount tr ((process now s).state, c) := by
        dsimp only [triggerCount, execCmd]
        simp
      rw [hred]
      exact ih _ c hs hl hup2
    | setMute set =>
      have hred : triggerCount (Cmd.setMute set :: tr) (s, c)
          = triggerCount tr ((mute set s).2.1, c) := by
        dsimp only [triggerCount, execCmd]
        simp
      rw [hred]
      exact ih _ c hs hl hup2
    | loopTick =>
      have hred : triggerCount (Cmd.loopTick :: tr) (s, c)
          = triggerCount tr ((beeperLoopStep s).1, c) := by
        dsimp only [triggerCount, execCmd]
        simp
      rw [hred]
      exact ih _ c hs hl hup2

/-- Claim C7: for a non-looping condition (loop = false, as built by
the registration macro for playCount = N > 0), along any run of system
steps during which started stays true (no falling edge is sampled),
the condition's theme is enqueued at most N times - the heard flag in
fact blocks everything after the first enqueue - and once heard is
set, in particular from the step where plays reached its final value
onwards, it is never enqueued again within that interval. -/
theorem c7_playCount_bound (tr : List Cmd) (s : BeeperSource)
    (c : ToneCondition) (hs : c.started = true) (hl : c.loop = false)
    (hn : 0 < c.playCount) (hup : ∀ cmd ∈ tr, cmd ≠ Cmd.sample false) :
    (triggerCount tr (s, c) : Int) ≤ c.playCount ∧
    (c.heard = true → triggerCount tr (s, c) = 0) := by
  obtain ⟨h1, h2⟩ := trigger_le_one tr s c hs hl hup
  exact ⟨by omega, h2⟩

/-- Witness for c7_playCount_bound: a playCount 2 condition over a
trace with two condition visits and a predicate re-sample. -/
theorem c7_playCount_bound_witness :
    (triggerCount [Cmd.runCond 0, Cmd.sample true, Cmd.runCond 5]
        (initState, ⟨true, false, false, 0, 2, ⟨[⟨3000, 10⟩]⟩⟩) : Int)
      ≤ (2 : Int) ∧
    ((⟨true, false, false, 0, 2, ⟨[⟨3000, 10⟩]⟩⟩ : ToneCondition).heard = true
      → triggerCount [Cmd.runCond 0, Cmd.sample true, Cmd.runCond 5]
          (initState, ⟨true, false, false, 0, 2, ⟨[⟨3000, 10⟩]⟩⟩) = 0) :=
  c7_playCount_bound [Cmd.runCond 0, Cmd.sample true, Cmd.runCond 5]
    initState ⟨true, false, false, 0, 2, ⟨[⟨3000, 10⟩]⟩⟩ rfl rfl
    (by decide) (by decide)

lemma tick100Fold_const : ∀ (samples : List (Bool × BeeperSource))
    (c : ToneCondition), c.started = false →
    (∀ ps ∈ samples, ps.1 = true → ps.2.muted = true) →
    tick100Fold c samples = c := by
  intro samples
  induction samples with
  | nil =>
    intro c _ _
    rfl
  | cons ps rest ih =>
    intro c hc hm
    have hstep : tick100 ps.1 ps.2 c = c := by
      dsimp only [tick100]
      by_cases hmu : ps.2.muted = false
      · rw [if_pos hmu]
        cases hp1 : ps.1
        · dsimp only [setCondition]
          rw [if_neg fun hcond => Bool.noConfusion hcond.1]
          rw [if_neg fun hcond => by rw [hc] at hcond; exact Bool.noConfusion hcond.2]
        · exfalso
          have hmt := hm ps (List.mem_cons_self _ _) hp1
          rw [hmt] at hmu
          exact Bool.noConfusion hmu
      · rw [if_neg hmu]
    have hred : tick100Fold c (ps :: rest)
        = tick100Fold (tick100 ps.1 ps.2 c) rest := rfl
    rw [hred, hstep]
    exact ih c hc (fun x hx => hm x (List.mem_cons_of_mem _ hx))

/-- Claim C9: while an engine is muted the 100 ms tick does not call
setCondition for conditions bound to it (io_beeper.h:242-245), so a
predicate rising edge whose whole duration falls inside a muted period
is never recorded in the condition's edge state - started, heard and
plays keep their values - and the condition triggers no playback at
any later condition visit, even after the engine is unmuted. -/
theorem c9_muted_tick_drops_edges (samples : List (Bool × BeeperSource))
    (c : ToneCondition) (hc : c.started = false)
    (hm : ∀ ps ∈ samples, ps.1 = true → ps.2.muted = true) :
    tick100Fold c samples = c ∧
    (∀ (now : Nat) (s2 : BeeperSource),
      (runConditionStep now s2 c).fired = false) := by
  refine ⟨tick100Fold_const samples c hc hm, ?_⟩
  intro now s2
  dsimp only [runConditionStep]
  rw [if_neg fun hcond => by rw [hc] at hcond; exact Bool.noConfusion hcond.1]

/-- Witness for c9_muted_tick_drops_edges: a rising and falling
predicate sampled only while muted leaves the condition untouched and
unfired. -/
theorem c9_muted_tick_drops_edges_witness :
    tick100Fold ⟨false, false, false, 0, 1, ⟨[⟨3000, 10⟩]⟩⟩
        [(true, { initState with muted := true }), (false, initState)]
      = ⟨false, false, false, 0, 1, ⟨[⟨3000, 10⟩]⟩⟩ ∧
    (runConditionStep 0 initState
        ⟨false, false, false, 0, 1, ⟨[⟨3000, 10⟩]⟩⟩).fired = false := by
  have H := c9_muted_tick_drops_edges
    [(true, { initState with muted := true }), (false, initState)]
    ⟨false, false, false, 0, 1, ⟨[⟨3000, 10⟩]⟩⟩ rfl (by decide)
  exact ⟨H.1, H.2 0 initState⟩

end Beeper
